import Mathlib

/-!
Verification of the Dashboard aggregation core (a Next.js Jira dashboard)
against its natural-language specification.

The relevant source is shallowly embedded:

* `getVersionBasedHealth` — the health calculator from `app/page.tsx`;
* the latest-version resolution inlined in `enrichedProjects` in
  `app/page.tsx`, embedded as `resolveLatest`;
* `fetchWithRetry` — the retrying fetch helper duplicated in the API routes;
* the issue grouping of the tasks/projects routes (`groupCounts`);
* the per-version statistics of the versions route (`buildStats`,
  `finalVersions`);
* the request gates of the single-issue route and the tasks route.

JavaScript numbers that hold issue counts are modelled as `Nat` (they are
produced by counting), `Math.round` over the exact ratio as round-half-up
rational rounding (`jsRound`), and date strings by their
`new Date(s).getTime()` values (`Nat`), since only their ordering is used
by the code. `undefined`/absent JSON fields are modelled with `Option`,
and the JS `??` / `||` chains are translated literally.
-/

namespace Dashboard

/-- Health classification values from `app/page.tsx`
(`'Healthy' | 'At Risk' | 'Critical'`). -/
inductive HealthStatus where
  | healthy
  | atRisk
  | critical
deriving DecidableEq

/-- `taskCounts` shape `{ total: number; counts: Record<string, number> }`.
The JS object `counts` is modelled as an association list in insertion
order. -/
structure TaskCounts where
  total : Nat
  counts : List (String × Nat)
deriving DecidableEq

/-- The optional `issueCounts` object on a version in `app/page.tsx`:
`{ issuesFixedCount?: number; totalIssues?: number }`. -/
structure PageIssueCounts where
  issuesFixedCount : Option Nat
  totalIssues : Option Nat
deriving DecidableEq

/-- The `JiraVersion` interface of `app/page.tsx`.  `startDate` and
`releaseDate` are modelled by their `new Date(s).getTime()` values. -/
structure JiraVersion where
  id : String
  name : String
  status : String
  startDate : Option Nat
  releaseDate : Option Nat
  issueCounts : Option PageIssueCounts
deriving DecidableEq

/-- The `ProjectHealth` interface of `app/page.tsx`. -/
structure ProjectHealth where
  status : HealthStatus
  progress : Nat
  totalProjectIssues : Nat
  blocked : Nat
  versionFixed : Nat
  versionTotal : Nat
deriving DecidableEq

/-- Property read on a JS object literal: first entry with the given key,
`none` when the key is absent.  Embeds `counts[key]` access. -/
def lookupCount (counts : List (String × Nat)) (key : String) : Option Nat :=
  match counts with
  | [] => none
  | (k, n) :: rest => if k = key then some n else lookupCount rest key

/-- `Math.round (num / den * 100)`-style rounding: round-half-up of the
exact rational `num / den`, for `den > 0`. -/
def jsRound (num den : Nat) : Nat :=
  (2 * num + den) / (2 * den)

/-- Embedding of `getVersionBasedHealth` from `app/page.tsx` (lines
94–112).  The `??` chains on the `counts` object are translated with
`Option.orElse`/`getD`; `latestVersion?.issueCounts?.issuesFixedCount ?? 0`
becomes the nested `Option.bind`. -/
def getVersionBasedHealth (taskCounts : TaskCounts)
    (latestVersion : Option JiraVersion) : ProjectHealth :=
  let totalProjectIssues := taskCounts.total
  let blocked := ((lookupCount taskCounts.counts "Blocked").orElse
    (fun _ => lookupCount taskCounts.counts "blocked")).getD 0
  let versionTotal := (latestVersion.bind
    (fun v => v.issueCounts.bind (fun c => c.issuesFixedCount))).getD 0
  let counts := taskCounts.counts
  let versionFixed :=
    ((lookupCount counts "Done").orElse (fun _ => lookupCount counts "done")).getD 0
    + ((lookupCount counts "Fixed").orElse (fun _ => lookupCount counts "fixed")).getD 0
  let progress := if versionTotal > 0 then jsRound (100 * versionFixed) versionTotal else 0
  let status :=
    if progress < 40 ∨ blocked ≥ 5 then HealthStatus.critical
    else if progress < 70 ∨ blocked ≥ 2 then HealthStatus.atRisk
    else HealthStatus.healthy
  ⟨status, progress, totalProjectIssues, blocked, versionFixed, versionTotal⟩

/-- Reference progress formula as written in the spec:
`round(versionFixed / versionTotal * 100)` if `versionTotal > 0`, else 0. -/
def progressSpec (versionFixed versionTotal : Nat) : Nat :=
  if versionTotal > 0 then jsRound (100 * versionFixed) versionTotal else 0

/-- Reference status classification as written in the spec, first matching
rule wins: `progress < 40 OR blocked >= 5` gives Critical, else
`progress < 70 OR blocked >= 2` gives At Risk, else Healthy. -/
def statusSpec (progress blocked : Nat) : HealthStatus :=
  if progress < 40 ∨ blocked ≥ 5 then .critical
  else if progress < 70 ∨ blocked ≥ 2 then .atRisk
  else .healthy

/-- C1: `getVersionBasedHealth` agrees with the spec's reference
definition: its progress is `round(versionFixed/versionTotal*100)` when
`versionTotal > 0` and 0 when `versionTotal = 0` (regardless of
`versionFixed`), and its status is the first matching rule of the ordered
list Critical / At Risk / Healthy; in particular progress 80 with blocked 2
classifies as At Risk. -/
theorem getVersionBasedHealth_matches_spec
    (tc : TaskCounts) (lv : Option JiraVersion) :
    ((getVersionBasedHealth tc lv).progress
      = progressSpec (getVersionBasedHealth tc lv).versionFixed
          (getVersionBasedHealth tc lv).versionTotal)
    ∧ ((getVersionBasedHealth tc lv).status
      = statusSpec (getVersionBasedHealth tc lv).progress
          (getVersionBasedHealth tc lv).blocked)
    ∧ ((getVersionBasedHealth tc lv).versionTotal = 0 →
        (getVersionBasedHealth tc lv).progress = 0)
    ∧ statusSpec 80 2 = .atRisk := by
  refine ⟨rfl, rfl, ?_, by decide⟩
  intro h
  simp only [getVersionBasedHealth] at h ⊢
  simp [h]

/-- Witness for C1 at a concrete input with `versionTotal = 0`. -/
theorem getVersionBasedHealth_matches_spec_witness :
    (getVersionBasedHealth ⟨3, [("Done", 2)]⟩ none).versionTotal = 0
    ∧ (getVersionBasedHealth ⟨3, [("Done", 2)]⟩ none).progress = 0 :=
  ⟨by decide, (getVersionBasedHealth_matches_spec ⟨3, [("Done", 2)]⟩ none).2.2.1 (by decide)⟩

/-- Concrete `taskCounts` whose Done count (over the whole project) exceeds
the latest version's `issuesFixedCount`. -/
def tcBig : TaskCounts := ⟨50, [("Done", 50)]⟩

/-- Concrete latest version whose `issueCounts.issuesFixedCount` is 10. -/
def lvSmall : JiraVersion := ⟨"10", "v10", "Unreleased", none, none, some ⟨some 10, some 60⟩⟩

/-- C2 counterexample: with 50 Done issues project-wide and a latest
version whose `issuesFixedCount` is 10, the computed progress is 500, so
`progress <= 100` fails. -/
theorem getVersionBasedHealth_progress_overflow :
    (getVersionBasedHealth tcBig (some lvSmall)).progress = 500
    ∧ ¬ (getVersionBasedHealth tcBig (some lvSmall)).progress ≤ 100 := by
  decide

/-- Bound for the rounded ratio when the numerator's base does not exceed
the denominator. -/
theorem jsRound_hundred_le (f t : Nat) (ht : 0 < t) (hf : f ≤ t) :
    jsRound (100 * f) t ≤ 100 := by
  have h2t : 0 < 2 * t := by omega
  have hlt : 2 * (100 * f) + t < 101 * (2 * t) := by omega
  have := (Nat.div_lt_iff_lt_mul h2t).mpr hlt
  simpa [jsRound, Nat.lt_succ_iff] using this

/-- C2 amended: `getVersionBasedHealth` is pure and total (a total Lean
function on all inputs, including `latestVersion = none`) and its progress
is a non-negative integer with `progress = 0` when `versionTotal = 0`;
`progress ≤ 100` holds whenever `versionFixed ≤ versionTotal`, but the
code puts no upper bound on progress when the project-wide Done/Fixed
counts exceed the latest version's `issuesFixedCount`. -/
theorem getVersionBasedHealth_progress_bounds
    (tc : TaskCounts) (lv : Option JiraVersion) :
    ((getVersionBasedHealth tc lv).versionTotal = 0 →
      (getVersionBasedHealth tc lv).progress = 0)
    ∧ ((getVersionBasedHealth tc lv).versionFixed ≤ (getVersionBasedHealth tc lv).versionTotal →
      (getVersionBasedHealth tc lv).progress ≤ 100) := by
  constructor
  · intro h
    simp only [getVersionBasedHealth] at h ⊢
    simp [h]
  · intro h
    simp only [getVersionBasedHealth] at h ⊢
    by_cases ht : (lv.bind fun v => v.issueCounts.bind fun c => c.issuesFixedCount).getD 0 > 0
    · simp only [ht, if_true]
      exact jsRound_hundred_le _ _ ht h
    · simp [ht]

/-- Witness for C2's amended theorem at a concrete input. -/
theorem getVersionBasedHealth_progress_bounds_witness :
    ((getVersionBasedHealth ⟨4, [("Done", 3)]⟩ (some lvSmall)).versionFixed
      ≤ (getVersionBasedHealth ⟨4, [("Done", 3)]⟩ (some lvSmall)).versionTotal)
    ∧ (getVersionBasedHealth ⟨4, [("Done", 3)]⟩ (some lvSmall)).progress ≤ 100 :=
  ⟨by decide,
    (getVersionBasedHealth_progress_bounds ⟨4, [("Done", 3)]⟩ (some lvSmall)).2 (by decide)⟩

/-- Lower-case an ASCII character (the status names involved are ASCII). -/
def charLower (c : Char) : Char :=
  if 65 ≤ c.toNat ∧ c.toNat ≤ 90 then Char.ofNat (c.toNat + 32) else c

/-- Case-insensitive string equality, folding each character to lower
case. -/
def strEqCI (a b : String) : Prop :=
  a.data.map charLower = b.data.map charLower

instance (a b : String) : Decidable (strEqCI a b) := by
  unfold strEqCI
  infer_instance

/-- Case-insensitive single-bucket lookup, as the spec describes the
status-bucket matching: the first bucket whose key matches the requested
name up to case. -/
def lookupCountCI (counts : List (String × Nat)) (key : String) : Option Nat :=
  match counts with
  | [] => none
  | (k, n) :: rest => if strEqCI k key then some n else lookupCountCI rest key

/-- C7 counterexample: a bucket named `"BLOCKED"` is matched by the
spec's case-insensitive lookup but not by the code, which reads only the
exact keys `Blocked` and `blocked`; the computed `blocked` is 0 although
the case-insensitive count is 3. -/
theorem getVersionBasedHealth_blocked_not_ci :
    (getVersionBasedHealth ⟨3, [("BLOCKED", 3)]⟩ none).blocked = 0
    ∧ lookupCountCI [("BLOCKED", 3)] "Blocked" = some 3 := by
  decide

/-- C7 amended: `blocked` is the exact-key lookup of `"Blocked"` falling
back to `"blocked"` (0 when neither key is present), and `versionFixed` is
the sum of the exact-key lookups `"Done"`/`"done"` and `"Fixed"`/`"fixed"`
— only those two capitalizations are matched, not arbitrary casings such
as `"BLOCKED"` or `"DONE"`. -/
theorem getVersionBasedHealth_exact_casing
    (tc : TaskCounts) (lv : Option JiraVersion) :
    (∀ n, lookupCount tc.counts "Blocked" = some n →
      (getVersionBasedHealth tc lv).blocked = n)
    ∧ (lookupCount tc.counts "Blocked" = none →
      ∀ n, lookupCount tc.counts "blocked" = some n →
        (getVersionBasedHealth tc lv).blocked = n)
    ∧ (lookupCount tc.counts "Blocked" = none →
      lookupCount tc.counts "blocked" = none →
        (getVersionBasedHealth tc lv).blocked = 0)
    ∧ (getVersionBasedHealth tc lv).versionFixed =
      ((lookupCount tc.counts "Done").orElse
        (fun _ => lookupCount tc.counts "done")).getD 0
      + ((lookupCount tc.counts "Fixed").orElse
        (fun _ => lookupCount tc.counts "fixed")).getD 0 := by
  refine ⟨?_, ?_, ?_, rfl⟩
  · intro n h
    simp [getVersionBasedHealth, h, Option.orElse]
  · intro h n h'
    simp [getVersionBasedHealth, h, h', Option.orElse]
  · intro h h'
    simp [getVersionBasedHealth, h, h', Option.orElse]

/-- Witness for C7's amended theorem at a concrete input. -/
theorem getVersionBasedHealth_exact_casing_witness :
    lookupCount [("Blocked", 2)] "Blocked" = some 2
    ∧ (getVersionBasedHealth ⟨2, [("Blocked", 2)]⟩ none).blocked = 2 :=
  ⟨by decide,
    (getVersionBasedHealth_exact_casing ⟨2, [("Blocked", 2)]⟩ none).1 2 (by decide)⟩

/-- Ordering sign produced by comparing two `Ordering` values as the JS
`localeCompare` result sign (negative / zero / positive). -/
def orderingToInt : Ordering → Int
  | .lt => -1
  | .eq => 0
  | .gt => 1

/-- The sort comparator inlined in `enrichedProjects` (`app/page.tsx`
lines 209–218): compare by `releaseDate || startDate` numerically when
both sides have a date, a dated version sorts after an undated one, and
two undated versions compare by name (`localeCompare`, modelled by
`compare` on strings). -/
def versionCmp (a b : JiraVersion) : Int :=
  match a.releaseDate.orElse (fun _ => a.startDate),
      b.releaseDate.orElse (fun _ => b.startDate) with
  | some dateA, some dateB => (dateA : Int) - (dateB : Int)
  | some _, none => 1
  | none, some _ => -1
  | none, none => orderingToInt (compare a.name b.name)

/-- Stable insertion of one element into an already sorted list, placing
it after every element it does not compare strictly below — the order a
stable comparator sort (JS `Array.prototype.sort`) produces. -/
def insertVersion (a : JiraVersion) : List JiraVersion → List JiraVersion
  | [] => [a]
  | b :: rest => if versionCmp a b < 0 then a :: b :: rest else b :: insertVersion a rest

/-- Stable sort of the version list with `versionCmp`, processing the
input left to right. -/
def sortVersions (versions : List JiraVersion) : List JiraVersion :=
  versions.foldl (fun acc v => insertVersion v acc) []

/-- Last element of a list, or `none` when empty — the source's
`sortedVersions.length ? sortedVersions[sortedVersions.length - 1] :
undefined`. -/
def lastOpt {α : Type} : List α → Option α
  | [] => none
  | [a] => some a
  | _ :: b :: rest => lastOpt (b :: rest)

/-- The latest-version selection inlined in `enrichedProjects`
(`app/page.tsx` lines 204–224): drop versions whose status is
`"Archived"`, sort with `versionCmp`, take the last element. -/
def resolveLatest (versions : List JiraVersion) : Option JiraVersion :=
  lastOpt (sortVersions (versions.filter (fun v => v.status != "Archived")))

theorem mem_of_lastOpt {α : Type} :
    ∀ (l : List α) (a : α), lastOpt l = some a → a ∈ l
  | [], _, h => by simp [lastOpt] at h
  | [b], a, h => by
    simp only [lastOpt, Option.some.injEq] at h
    simp [h]
  | _ :: b :: rest, a, h => by
    have := mem_of_lastOpt (b :: rest) a h
    exact List.mem_cons_of_mem _ this

theorem mem_insertVersion (a x : JiraVersion) :
    ∀ l, x ∈ insertVersion a l → x = a ∨ x ∈ l
  | [], h => by simpa [insertVersion] using h
  | b :: rest, h => by
    by_cases hc : versionCmp a b < 0
    · simp only [insertVersion, if_pos hc, List.mem_cons] at h
      rcases h with h | h | h
      · exact Or.inl h
      · exact Or.inr (by simp [h])
      · exact Or.inr (List.mem_cons_of_mem _ h)
    · simp only [insertVersion, if_neg hc, List.mem_cons] at h
      rcases h with h | h
      · exact Or.inr (by simp [h])
      · rcases mem_insertVersion a x rest h with h' | h'
        · exact Or.inl h'
        · exact Or.inr (List.mem_cons_of_mem _ h')

theorem mem_sortVersions (x : JiraVersion) (l : List JiraVersion)
    (h : x ∈ sortVersions l) : x ∈ l := by
  suffices H : ∀ (l acc : List JiraVersion),
      x ∈ l.foldl (fun acc v => insertVersion v acc) acc → x ∈ l ∨ x ∈ acc by
    rcases H l [] h with h' | h'
    · exact h'
    · simp at h'
  intro l
  induction l with
  | nil => intro acc h; simp_all
  | cons b rest ih =>
    intro acc h
    simp only [List.foldl_cons] at h
    rcases ih (insertVersion b acc) h with h' | h'
    · exact Or.inl (List.mem_cons_of_mem _ h')
    · rcases mem_insertVersion b x acc h' with h'' | h''
      · exact Or.inl (by simp [h''])
      · exact Or.inr h''

/-- Version from the spec's sort scenario: `v3` has no date at all. -/
def scenarioV3 : JiraVersion := ⟨"3", "v3", "Unreleased", none, none, none⟩

/-- Version from the spec's sort scenario: `v1` released 2024-01-01. -/
def scenarioV1 : JiraVersion := ⟨"1", "v1", "Unreleased", none, some 20240101, none⟩

/-- Version from the spec's sort scenario: `v2` released 2024-06-01. -/
def scenarioV2 : JiraVersion := ⟨"2", "v2", "Unreleased", none, some 20240601, none⟩

/-- C3: `resolveLatest` follows the spec's algorithm: the empty list
resolves to `none`, a list of only-Archived versions resolves to `none`,
a resolved version is never Archived and always comes from the input
list, and the spec's sort scenario (`v3` undated, `v1` dated 2024-01-01,
`v2` dated 2024-06-01) resolves to `v2` — the undated `v3` sorts first
under the dated-always-later rule and `v2`'s later date beats `v1`.  The
function is total by construction, so it never throws. -/
theorem resolveLatest_spec :
    resolveLatest [] = none
    ∧ (∀ vs : List JiraVersion, (∀ v ∈ vs, v.status = "Archived") →
        resolveLatest vs = none)
    ∧ (∀ (vs : List JiraVersion) (v : JiraVersion), resolveLatest vs = some v →
        v.status ≠ "Archived" ∧ v ∈ vs)
    ∧ resolveLatest [scenarioV3, scenarioV1, scenarioV2] = some scenarioV2 := by
  refine ⟨rfl, ?_, ?_, by decide⟩
  · intro vs h
    have hfil : vs.filter (fun v => v.status != "Archived") = [] := by
      rw [List.filter_eq_nil_iff]
      intro v hv
      simp [h v hv]
    rw [resolveLatest, hfil]
    rfl
  · intro vs v h
    have hmem : v ∈ sortVersions (vs.filter (fun v => v.status != "Archived")) :=
      mem_of_lastOpt _ _ h
    have hfil := mem_sortVersions _ _ hmem
    refine ⟨?_, List.mem_of_mem_filter hfil⟩
    have := List.of_mem_filter hfil
    simpa using this

/-- Witness for C3 applied to concrete inputs: the only-Archived case and
the resolved-version case. -/
theorem resolveLatest_spec_witness :
    resolveLatest [⟨"9", "v9", "Archived", none, none, none⟩] = none
    ∧ (scenarioV2.status ≠ "Archived"
        ∧ scenarioV2 ∈ [scenarioV3, scenarioV1, scenarioV2]) :=
  ⟨resolveLatest_spec.2.1 [⟨"9", "v9", "Archived", none, none, none⟩] (by decide),
    resolveLatest_spec.2.2.1 [scenarioV3, scenarioV1, scenarioV2] scenarioV2 (by decide)⟩

/-- Outcome of one outbound HTTP attempt: a successful response (payload
abstracted to `Nat`) or a failure carrying the thrown error message —
both a non-2xx status turned into a thrown error and a transport/timeout
failure land in `fail`. -/
inductive FetchOutcome where
  | ok (resp : Nat)
  | fail (err : String)
deriving DecidableEq

/-- Embedding of `fetchWithRetry(url, options, retries, delay)` as
duplicated in the API route files: try the current attempt; on success
return the response; on failure with `retries > 0` wait `delay` and
recurse with `retries - 1` and `delay * 2`; with no retries left rethrow
the last error.  `outcome i` is what the `i`-th attempt would produce; the
returned list records every delay waited before a retry, in order. -/
def fetchWithRetry (outcome : Nat → FetchOutcome) (attempt retries delay : Nat) :
    FetchOutcome × List Nat :=
  match outcome attempt with
  | .ok r => (.ok r, [])
  | .fail e =>
    match retries with
    | 0 => (.fail e, [])
    | retries' + 1 =>
      let res := fetchWithRetry outcome (attempt + 1) retries' (delay * 2)
      (res.1, delay :: res.2)

/-- C4: with the defaults `retries = 3`, `delay = 1000`, a fetch whose
first two attempts fail and whose third succeeds returns the successful
response after exactly the two backoff delays 1000 ms and 2000 ms (each
retry doubling the delay and spending one remaining attempt); if every
attempt fails, the last error surfaces only after all four attempts
(initial plus three retries) with delays 1000, 2000, 4000 — and no
attempt beyond the ceiling is consulted, since any two outcome schedules
agreeing on attempts 0–3 yield the same result. -/
theorem fetchWithRetry_policy (outcome : Nat → FetchOutcome) :
    (∀ e₀ e₁ r, outcome 0 = .fail e₀ → outcome 1 = .fail e₁ → outcome 2 = .ok r →
      fetchWithRetry outcome 0 3 1000 = (.ok r, [1000, 2000]))
    ∧ (∀ es : Nat → String, (∀ i, i ≤ 3 → outcome i = .fail (es i)) →
      fetchWithRetry outcome 0 3 1000 = (.fail (es 3), [1000, 2000, 4000]))
    ∧ (∀ outcome' : Nat → FetchOutcome, (∀ i, i ≤ 3 → outcome i = outcome' i) →
      fetchWithRetry outcome 0 3 1000 = fetchWithRetry outcome' 0 3 1000) := by
  refine ⟨?_, ?_, ?_⟩
  · intro e₀ e₁ r h0 h1 h2
    simp [fetchWithRetry, h0, h1, h2]
  · intro es h
    simp [fetchWithRetry, h 0 (by omega), h 1 (by omega), h 2 (by omega), h 3 (by omega)]
  · intro outcome' h
    simp only [fetchWithRetry, h 0 (by omega), h 1 (by omega), h 2 (by omega),
      h 3 (by omega)]

/-- Outcome schedule failing on the first two attempts and succeeding on
the third. -/
def failFailOk : Nat → FetchOutcome
  | 0 => .fail "boom0"
  | 1 => .fail "boom1"
  | _ => .ok 42

/-- Witness for C4 at a concrete outcome schedule. -/
theorem fetchWithRetry_policy_witness :
    fetchWithRetry failFailOk 0 3 1000 = (.ok 42, [1000, 2000]) :=
  (fetchWithRetry_policy failFailOk).1 "boom0" "boom1" 42 rfl rfl rfl

/-- Issue as consumed by the grouping loops of the tasks route and the
projects route: only `fields?.status?.name` matters, absent when the
status object is missing. -/
structure SearchIssue where
  statusName : Option String
deriving DecidableEq

/-- `issue.fields?.status?.name || 'Unknown'`: a missing status and an
empty name (falsy in JS) both group under `"Unknown"`. -/
def statusOf (issue : SearchIssue) : String :=
  match issue.statusName with
  | some s => if s = "" then "Unknown" else s
  | none => "Unknown"

/-- `counts[status] = (counts[status] || 0) + 1` on a JS object: bump the
entry in place, or append a fresh entry with count 1 (JS objects keep
insertion order). -/
def bumpCount (m : List (String × Nat)) (key : String) : List (String × Nat) :=
  match m with
  | [] => [(key, 1)]
  | (k, n) :: rest => if k = key then (k, n + 1) :: rest else (k, n) :: bumpCount rest key

/-- The grouping loop shared by the tasks route
(`app/api/projects/[projectKey]/tasks/route.ts`) and the projects route
(`app/api/projects/route.ts`): one bump per issue on its status bucket. -/
def groupCounts (issues : List SearchIssue) : List (String × Nat) :=
  issues.foldl (fun m issue => bumpCount m (statusOf issue)) []

/-- The `TaskCounts` both routes return: `total` is `issues.length`,
`counts` is the grouping. -/
def taskCountsOf (issues : List SearchIssue) : TaskCounts :=
  ⟨issues.length, groupCounts issues⟩

/-- Sum of the values of a counts object. -/
def sumValues (m : List (String × Nat)) : Nat :=
  (m.map Prod.snd).sum

theorem sumValues_bumpCount (m : List (String × Nat)) (key : String) :
    sumValues (bumpCount m key) = sumValues m + 1 := by
  induction m with
  | nil => simp [bumpCount, sumValues]
  | cons p rest ih =>
    obtain ⟨k, n⟩ := p
    by_cases hk : k = key
    · simp [bumpCount, hk, sumValues]
      omega
    · simp only [bumpCount, if_neg hk, sumValues, List.map_cons, List.sum_cons]
      have := ih
      simp only [sumValues] at this
      omega

/-- C6: for every issue list, the `TaskCounts` produced by grouping
satisfies `sum(counts.values()) = total` — each issue increments exactly
one status bucket and `total` is the number of issues grouped.  The same
loop is embedded once for both the tasks route and the projects route. -/
theorem taskCountsOf_sum_eq_total (issues : List SearchIssue) :
    sumValues (taskCountsOf issues).counts = (taskCountsOf issues).total := by
  suffices H : ∀ (l : List SearchIssue) (m : List (String × Nat)),
      sumValues (l.foldl (fun m issue => bumpCount m (statusOf issue)) m)
        = sumValues m + l.length by
    have := H issues []
    simpa [taskCountsOf, groupCounts, sumValues] using this
  intro l
  induction l with
  | nil => intro m; simp
  | cons issue rest ih =>
    intro m
    simp only [List.foldl_cons, List.length_cons, ih, sumValues_bumpCount]
    omega

/-- User record as consumed by the dashboard (`JiraUser` in
`app/page.tsx`). -/
structure JiraUser where
  accountId : String
  displayName : String
deriving DecidableEq

/-- Project fields arriving from `/api/projects` before enrichment. -/
structure ProjectBase where
  id : String
  key : String
  name : String
  lead : Option String
deriving DecidableEq

/-- The enriched `ApiProject` record assembled in `app/page.tsx`. -/
structure ApiProject where
  id : String
  key : String
  name : String
  lead : Option String
  taskCounts : TaskCounts
  latestVersion : Option JiraVersion
  members : Nat
  health : ProjectHealth
deriving DecidableEq

/-- `fetcher(u).catch(() => ({ total: 0, counts: {} }))` — the tasks
sub-fetch replaced by its typed empty default on failure. -/
def tasksOrDefault (r : Except String TaskCounts) : TaskCounts :=
  match r with
  | .ok t => t
  | .error _ => ⟨0, []⟩

/-- `fetcher(u).catch(() => [])` — the versions sub-fetch replaced by the
empty list on failure. -/
def versionsOrDefault (r : Except String (List JiraVersion)) : List JiraVersion :=
  match r with
  | .ok vs => vs
  | .error _ => []

/-- `fetcher(u).catch(() => [])` — the users sub-fetch replaced by the
empty list on failure. -/
def usersOrDefault (r : Except String (List JiraUser)) : List JiraUser :=
  match r with
  | .ok us => us
  | .error _ => []

/-- The per-project body of `enrichedProjects` in `app/page.tsx` (lines
198–238): substitute defaults for failed sub-fetches, resolve the latest
version from the (possibly empty) version list, count members, compute
health, and merge into the record. -/
def enrichProject (p : ProjectBase)
    (tasksRes : Except String TaskCounts)
    (versionsRes : Except String (List JiraVersion))
    (usersRes : Except String (List JiraUser)) : ApiProject :=
  let taskData := tasksOrDefault tasksRes
  let versions := versionsOrDefault versionsRes
  let latestVersion := resolveLatest versions
  let userList := usersOrDefault usersRes
  let members := userList.length
  let health := getVersionBasedHealth taskData latestVersion
  ⟨p.id, p.key, p.name, p.lead, taskData, latestVersion, members, health⟩

/-- C5: per-project aggregation degrades instead of failing: when the
version-list sub-fetch fails but the task sub-fetch succeeds, the record
keeps the fetched `taskCounts` while the version list defaults to `[]`
and `latestVersion` to `none`; and each sub-fetch failure independently
substitutes its typed empty default (`{total: 0, counts: {}}` for tasks,
`[]` for versions and users, giving `members = 0`).  `enrichProject` is a
total function, so no failure combination aborts the aggregation. -/
theorem enrichProject_degrades (p : ProjectBase) (err : String)
    (tc : TaskCounts)
    (tasksRes : Except String TaskCounts)
    (versionsRes : Except String (List JiraVersion))
    (usersRes : Except String (List JiraUser)) :
    ((enrichProject p (.ok tc) (.error err) usersRes).taskCounts = tc
      ∧ (enrichProject p (.ok tc) (.error err) usersRes).latestVersion = none)
    ∧ versionsOrDefault (.error err) = []
    ∧ (enrichProject p (.error err) versionsRes usersRes).taskCounts = ⟨0, []⟩
    ∧ (enrichProject p tasksRes versionsRes (.error err)).members = 0 :=
  ⟨⟨rfl, rfl⟩, rfl, rfl, rfl⟩

/-- The first externally visible step a route handler takes on a request:
either an immediate rejection with an HTTP status, carrying no upstream
target, or the first outbound upstream call with its query/URL. -/
inductive RouteAction where
  | reject (httpStatus : Nat)
  | fetchUpstream (target : String)
deriving DecidableEq

/-- Gate of the single-issue route
(`app/api/projects/[projectKey]/issues/[issueKey]/route.ts` lines 45–61):
the decoded issue key is rejected with HTTP 400 when it contains a space
character (`includes(' ')`, checked on the key's character list), before
any upstream call; otherwise the handler proceeds to fetch the issue.
The argument is the already URI-decoded key. -/
def issueRouteGate (decodedIssueKey : String) : RouteAction :=
  if decodedIssueKey.data.contains ' ' then .reject 400
  else .fetchUpstream ("/rest/api/3/issue/" ++ decodedIssueKey)

/-- Gate of the tasks route
(`app/api/projects/[projectKey]/tasks/route.ts` lines 48–84): the project
key is interpolated into the JQL body and fetched with no validation of
any kind. -/
def tasksRouteGate (projectKey : String) : RouteAction :=
  .fetchUpstream ("project=\"" ++ projectKey ++ "\"")

/-- C8 counterexample: the tasks route issues an upstream search for the
project key `"A B"` even though it contains embedded whitespace — no
HTTP 400 rejection happens before the network call, refuting the claim
for keys other than single-issue keys. -/
theorem tasksRouteGate_no_validation :
    tasksRouteGate "A B" = .fetchUpstream "project=\"A B\"" := by
  decide

/-- C8 amended: only the single-issue route validates, and only for the
space character: an issue key containing `' '` is rejected with HTTP 400
before any upstream call is issued (the rejection carries no upstream
target); routes keyed by project key, such as the tasks route, perform no
validation and always proceed to fetch. -/
theorem issueRouteGate_rejects_space (k : String)
    (h : k.data.contains ' ' = true) :
    issueRouteGate k = .reject 400
    ∧ (∀ t, issueRouteGate k ≠ .fetchUpstream t)
    ∧ ∀ pk : String, ∃ t, tasksRouteGate pk = .fetchUpstream t := by
  have hm : ' ' ∈ k.data := by simpa using h
  refine ⟨by simp [issueRouteGate, hm], ?_, ?_⟩
  · intro t
    simp [issueRouteGate, hm]
  · intro pk
    exact ⟨_, rfl⟩

/-- Witness for C8's amended theorem at the key `"To Do"`. -/
theorem issueRouteGate_rejects_space_witness :
    issueRouteGate "To Do" = .reject 400 :=
  (issueRouteGate_rejects_space "To Do" (by decide)).1

/-- A version object as the upstream returns it to the versions route:
identity and names plus the raw `released`/`archived` boolean pair; the
`status` field is whatever the upstream JSON happened to carry (`none`
when absent), since the route only spreads the object. -/
structure UpstreamVersion where
  id : String
  name : String
  released : Bool
  archived : Bool
  status : Option String
  startDate : Option String
  releaseDate : Option String
deriving DecidableEq

/-- The recomputed `issueCounts` object the versions route attaches. -/
structure RouteIssueCounts where
  issuesFixedCount : Nat
  totalIssues : Nat
deriving DecidableEq

/-- One element of the versions route response: the upstream version
spread unchanged (`...version`) with `issueCounts` overwritten. -/
structure FinalVersion where
  version : UpstreamVersion
  issueCounts : RouteIssueCounts
deriving DecidableEq

/-- Per-version tally `{ done, total }` kept in `versionStatsMap`. -/
structure VStats where
  done : Nat
  total : Nat
deriving DecidableEq

/-- An issue as consumed by the versions route's stats loop: its status
name (if any) and the ids of its `fixVersions`. -/
structure VIssue where
  statusName : Option String
  fixVersions : List String
deriving DecidableEq

/-- `issue.fields.status?.name.toLowerCase() || 'unknown'`: lower-case
the status name, with a missing status or empty name grouping as
`"unknown"`. -/
def vstatusOf (issue : VIssue) : String :=
  match issue.statusName with
  | some s => if s = "" then "unknown" else String.mk (s.data.map charLower)
  | none => "unknown"

/-- One `stats.total++` and conditional `stats.done++` step. -/
def statUpdate (isDone : Bool) (st : VStats) : VStats :=
  ⟨st.done + (if isDone then 1 else 0), st.total + 1⟩

/-- Update the stats map at one version id, inserting `{0, 0}` first when
the id is not yet present (the `Map` keeps insertion order). -/
def mapUpdate (m : List (String × VStats)) (vid : String) (isDone : Bool) :
    List (String × VStats) :=
  match m with
  | [] => [(vid, statUpdate isDone ⟨0, 0⟩)]
  | (k, st) :: rest =>
    if k = vid then (k, statUpdate isDone st) :: rest
    else (k, st) :: mapUpdate rest vid isDone

/-- The stats loop of the versions route
(`app/api/projects/[projectKey]/versions/route.ts` lines 96–121): every
issue bumps `total` (and `done` when its lower-cased status is `done` or
`fixed`) for each of its fix versions; issues with no fix version are
skipped. -/
def buildStats (issues : List VIssue) : List (String × VStats) :=
  issues.foldl
    (fun m issue =>
      let s := vstatusOf issue
      issue.fixVersions.foldl
        (fun m vid => mapUpdate m vid (s == "done" || s == "fixed")) m)
    []

/-- Lookup in the stats map (`versionStatsMap.get(version.id)`). -/
def findStats (m : List (String × VStats)) (vid : String) : Option VStats :=
  match m with
  | [] => none
  | (k, st) :: rest => if k = vid then some st else findStats rest vid

/-- The merge step of the versions route (lines 124–139): spread each
upstream version unchanged and overwrite `issueCounts` with the computed
stats, defaulting both counts to 0 when the version id has no entry. -/
def finalVersions (versions : List UpstreamVersion) (issues : List VIssue) :
    List FinalVersion :=
  let statsMap := buildStats issues
  versions.map (fun v =>
    let stats := findStats statsMap v.id
    ⟨v, ⟨(stats.map VStats.done).getD 0, (stats.map VStats.total).getD 0⟩⟩)

/-- Concrete upstream version: released, not archived, and carrying no
status field of its own. -/
def rawReleasedVersion : UpstreamVersion :=
  ⟨"100", "v1.0", true, false, none, none, none⟩

/-- Concrete upstream version: archived per its boolean pair, yet
carrying the contradictory status text `"Released"`. -/
def mislabelledVersion : UpstreamVersion :=
  ⟨"200", "v2.0", false, true, some "Released", none, none⟩

/-- C9 counterexample: the versions route derives no status.  A released,
non-archived upstream version without a status field is exposed with no
status at all, and an archived version whose upstream status text says
`"Released"` is exposed saying `"Released"` — the response forwards the
upstream field verbatim instead of deriving it from the boolean pair. -/
theorem finalVersions_status_not_derived :
    (finalVersions [rawReleasedVersion, mislabelledVersion] []).map
        (fun o => o.version.status) = [none, some "Released"]
    ∧ (finalVersions [rawReleasedVersion] []).map (fun o => o.version.released)
        = [true] := by
  decide

/-- C9 amended: every element of the versions endpoint's response exposes
exactly the status field (and every other version field) the upstream
provided, unchanged — absent stays absent and nothing is derived from the
`released`/`archived` booleans; only `issueCounts` is recomputed.  The
Released/Archived/Unreleased rendering happens in the UI components, not
in the API response. -/
theorem finalVersions_forwards_status
    (versions : List UpstreamVersion) (issues : List VIssue) :
    (finalVersions versions issues).map (fun o => o.version) = versions := by
  simp only [finalVersions, List.map_map]
  exact List.map_id'' (fun _ => rfl) versions

theorem findStats_mem (m : List (String × VStats)) (vid : String)
    (st : VStats) (h : findStats m vid = some st) : (vid, st) ∈ m := by
  induction m with
  | nil => simp [findStats] at h
  | cons p rest ih =>
    obtain ⟨k, st'⟩ := p
    by_cases hk : k = vid
    · simp only [findStats, if_pos hk, Option.some.injEq] at h
      simp [hk, h]
    · simp only [findStats, if_neg hk] at h
      exact List.mem_cons_of_mem _ (ih h)

/-- Every tally in the map keeps `done ≤ total`. -/
def statsOk (m : List (String × VStats)) : Prop :=
  ∀ p ∈ m, p.2.done ≤ p.2.total

theorem statsOk_mapUpdate (m : List (String × VStats)) (vid : String)
    (isDone : Bool) (hm : statsOk m) : statsOk (mapUpdate m vid isDone) := by
  induction m with
  | nil =>
    intro p hp
    simp only [mapUpdate, List.mem_singleton] at hp
    subst hp
    cases isDone <;> simp [statUpdate]
  | cons q rest ih =>
    obtain ⟨k, st⟩ := q
    have hst : st.done ≤ st.total := hm (k, st) (by simp)
    have hrest : statsOk rest := fun p hp => hm p (List.mem_cons_of_mem _ hp)
    by_cases hk : k = vid
    · intro p hp
      simp only [mapUpdate, if_pos hk, List.mem_cons] at hp
      rcases hp with hp | hp
      · subst hp
        cases isDone <;> simp [statUpdate] <;> omega
      · exact hrest p hp
    · intro p hp
      simp only [mapUpdate, if_neg hk, List.mem_cons] at hp
      rcases hp with hp | hp
      · subst hp
        exact hst
      · exact ih hrest p hp

theorem statsOk_foldIds (ids : List String) (isDone : Bool) :
    ∀ m, statsOk m →
      statsOk (ids.foldl (fun m vid => mapUpdate m vid isDone) m) := by
  induction ids with
  | nil => intro m hm; simpa using hm
  | cons vid rest ih =>
    intro m hm
    simp only [List.foldl_cons]
    exact ih _ (statsOk_mapUpdate m vid isDone hm)

theorem statsOk_buildStats (issues : List VIssue) : statsOk (buildStats issues) := by
  suffices H : ∀ (l : List VIssue) (m : List (String × VStats)), statsOk m →
      statsOk (l.foldl
        (fun m issue =>
          let s := vstatusOf issue
          issue.fixVersions.foldl
            (fun m vid => mapUpdate m vid (s == "done" || s == "fixed")) m) m) by
    exact H issues [] (by intro p hp; simp at hp)
  intro l
  induction l with
  | nil => intro m hm; simpa using hm
  | cons issue rest ih =>
    intro m hm
    simp only [List.foldl_cons]
    exact ih _ (statsOk_foldIds issue.fixVersions _ m hm)

/-- C10: every version object in the versions route response satisfies
`issuesFixedCount ≤ totalIssues`: the stats loop increments a version's
`total` on the same pass as any `done` increment, so the fixed count never
exceeds the total (both counts are non-negative by construction). -/
theorem finalVersions_fixed_le_total
    (versions : List UpstreamVersion) (issues : List VIssue)
    (o : FinalVersion) (ho : o ∈ finalVersions versions issues) :
    o.issueCounts.issuesFixedCount ≤ o.issueCounts.totalIssues := by
  simp only [finalVersions, List.mem_map] at ho
  obtain ⟨v, _, rfl⟩ := ho
  cases hfs : findStats (buildStats issues) v.id with
  | none => simp [hfs]
  | some st =>
    have hmem := findStats_mem _ _ _ hfs
    have := statsOk_buildStats issues (v.id, st) hmem
    simpa [hfs] using this

/-- Witness for C10 at a concrete route response: one issue with status
Done and one with status To Do, both fixed in version id 100. -/
theorem finalVersions_fixed_le_total_witness :
    (⟨rawReleasedVersion, ⟨1, 2⟩⟩ : FinalVersion) ∈
      finalVersions [rawReleasedVersion]
        [⟨some "Done", ["100"]⟩, ⟨some "To Do", ["100"]⟩]
    ∧ (1 : Nat) ≤ 2 :=
  ⟨by decide,
    finalVersions_fixed_le_total [rawReleasedVersion]
      [⟨some "Done", ["100"]⟩, ⟨some "To Do", ["100"]⟩]
      ⟨rawReleasedVersion, ⟨1, 2⟩⟩ (by decide)⟩

end Dashboard
